import Mathlib

set_option maxHeartbeats 1000000

/-!
Verification of the deterministic core of the receipt-analysis repository:
the field extractor `_extract_receipt_info` (setup_script.py) and the
aggregator `agent_2_aggregate_data` (setup_script.py) / `aggregate_data`
(receipt_processor.py).  Python strings are modelled as `List Char` with
ASCII semantics for case mapping and character classes; Python `float`
amounts are modelled as exact rationals (two-decimal currency
semantics, spec section 3), with `float` modelled on decimal notation (optional sign,
digits, optional fractional part).
-/

namespace Receipts

/-- Convert a Lean string literal to the character-list representation used
throughout this development. -/
def chars (x : String) : List Char := x.toList

/-- Characters treated as whitespace by the Python `str.strip` method (ASCII subset). -/
def isPySpace (c : Char) : Bool :=
  c = ' ' || c = '\t' || c = '\n' || c = '\r' || c = '\x0b' || c = '\x0c'

/-- Python `str.strip`: remove leading and trailing whitespace. -/
def pyStrip (l : List Char) : List Char :=
  ((l.dropWhile isPySpace).reverse.dropWhile isPySpace).reverse

/-- Python `str.lower` (ASCII case mapping). -/
def asciiLower (l : List Char) : List Char := l.map Char.toLower

/-- Python `str.upper` (ASCII case mapping). -/
def asciiUpper (l : List Char) : List Char := l.map Char.toUpper

/-- Python string split on the newline character: the empty string yields
one empty field. -/
def pySplitNl : List Char → List (List Char)
  | [] => [[]]
  | c :: cs =>
    match pySplitNl cs with
    | [] => [[]]
    | h :: t => if c = '\n' then [] :: h :: t else (c :: h) :: t

/-- Python substring test `needle in hay`. -/
def pyContains (hay needle : List Char) : Bool :=
  match hay with
  | [] => needle.isEmpty
  | _ :: t => needle.isPrefixOf hay || pyContains t needle

/-- The line sequence obtained by stripping the content and splitting on
newlines, computed at the top of
`_extract_receipt_info` (setup_script.py line 246). -/
def pyLines (content : List Char) : List (List Char) := pySplitNl (pyStrip content)

/-- The metadata tokens skipped by the company-name scan
(setup_script.py line 253). -/
def metaTokens : List (List Char) :=
  [chars ("date:"), chars ("time:"), chars ("order:"), chars ("store #"),
    chars ("transaction")]

/-- `any(skip in line.lower() for skip in [...])` on a stripped line. -/
def hasMetaToken (line : List Char) : Bool :=
  metaTokens.any fun t => pyContains (asciiLower line) t

/-- The brand membership guard of the company scan: the upper-cased line
contains one of STARBUCKS, WAL-MART, WALMART, MCDONALD
(setup_script.py line 255). -/
def brandHit (u : List Char) : Bool :=
  pyContains u (chars ("STARBUCKS")) || pyContains u (chars ("WAL-MART")) ||
    pyContains u (chars ("WALMART")) || pyContains u (chars ("MCDONALD"))

/-- Python `str.isalpha` (ASCII): non-empty and all letters. -/
def pyIsAlpha (l : List Char) : Bool := !l.isEmpty && l.all Char.isAlpha

/-- Remove every space and hyphen, modelling the chained `replace` calls
on the line. -/
def stripSpaceHyphen (l : List Char) : List Char :=
  l.filter fun c => c != ' ' && c != '-'

/-- One iteration of the company-name loop of `_extract_receipt_info`
(setup_script.py lines 251-265): `none` means the loop continues to the next
line, `some c` means the loop breaks with `company_name = c`.  The inner
`some []` branch mirrors the structure of the source, where the brand guard
fires but none of the nested branches assigns (unreachable, since the guard
is the disjunction of the nested conditions). -/
def lineResult (rawLine : List Char) : Option (List Char) :=
  let line := pyStrip rawLine
  if line = [] then none
  else if hasMetaToken line then none
  else if brandHit (asciiUpper line) then
    some (if pyContains (asciiUpper line) (chars ("STARBUCKS")) then chars ("STARBUCKS")
      else if pyContains (asciiUpper line) (chars ("WAL-MART")) ||
          pyContains (asciiUpper line) (chars ("WALMART")) then chars ("WALMART")
      else if pyContains (asciiUpper line) (chars ("MCDONALD")) then chars ("MCDONALDS")
      else [])
  else if pyIsAlpha (stripSpaceHyphen line) && decide (line.length > 3) then
    some (asciiUpper line)
  else none

/-- The company-name scan loop (`for line in lines[:5]`): returns the value
of the Python variable `company_name` after the loop (empty when no line
matched).  The caller passes `lines.take 5`. -/
def scanCompany : List (List Char) → List Char
  | [] => []
  | l :: rest =>
    match lineResult l with
    | some c => c
    | none => scanCompany rest

/-- Match the regex fragment `\d+\.\d+` at the head of `l` (greedy digit
runs around a literal dot); on success return the captured group and the
rest of the input. -/
def tryDec (l : List Char) : Option (List Char × List Char) :=
  let p1 := l.span Char.isDigit
  match p1.2 with
  | '.' :: r2 =>
    let p2 := r2.span Char.isDigit
    if p1.1 = [] || p2.1 = [] then none
    else some (p1.1 ++ '.' :: p2.1, p2.2)
  | _ => none

/-- Match `\$?(\d+\.\d+)` at the head of `l`: an optional dollar sign then a
decimal amount.  When `l` starts with a dollar sign but no amount follows, the whole
match fails (backtracking to the empty `\$?` still leaves `\d+` facing the
dollar sign). -/
def tryAmount : List Char → Option (List Char × List Char)
  | '$' :: rest => tryDec rest
  | l => tryDec l

/-- Fuelled scanner behind `findAmounts`: at each position try to match
`\$?(\d+\.\d+)`; on success emit the group and continue after the match,
otherwise advance one character (Python `re.findall` semantics for this
pattern). -/
def findAmountsAux : Nat → List Char → List (List Char)
  | 0, _ => []
  | _ + 1, [] => []
  | fuel + 1, c :: cs =>
    match tryAmount (c :: cs) with
    | some (amt, rest) => amt :: findAmountsAux fuel rest
    | none => findAmountsAux fuel cs

/-- The `re.findall` call on the pattern \$?(\d+\.\d+) over `l`
(setup_script.py line 273).  Fuel
`l.length` suffices: every step consumes at least one character. -/
def findAmounts (l : List Char) : List (List Char) := findAmountsAux l.length l

/-- The total-line test of `_extract_receipt_info` (setup_script.py line
270), applied to the stripped upper-cased line: contains `TOTAL:`, or starts
with `TOTAL` and contains a dollar sign. -/
def matchesTotalLine (rawLine : List Char) : Bool :=
  let u := asciiUpper (pyStrip rawLine)
  pyContains u (chars ("TOTAL:")) ||
    ((chars ("TOTAL")).isPrefixOf u && u.contains '$')

/-- The total-amount scan loop of `_extract_receipt_info` (setup_script.py
lines 268-276): stop at the first matching line; take the last regex match
on it, or break with the amount still empty when the line has none. -/
def scanTotal : List (List Char) → List Char
  | [] => []
  | l :: rest =>
    if matchesTotalLine l then
      match (findAmounts (asciiUpper (pyStrip l))).getLast? with
      | some a => a
      | none => []
    else scanTotal rest

/-- The filename fallback for the company name (setup_script.py lines
279-287). -/
def fallbackCompany (filename : List Char) : List Char :=
  if pyContains (asciiLower filename) (chars ("starbucks")) then chars ("STARBUCKS")
  else if pyContains (asciiLower filename) (chars ("walmart")) then chars ("WALMART")
  else if pyContains (asciiLower filename) (chars ("mcdonalds")) ||
      pyContains (asciiLower filename) (chars ("mcd")) then chars ("MCDONALDS")
  else chars ("UNKNOWN_STORE")

/-- The record produced by the field extractor (spec section 3:
ReceiptRecord). -/
structure ReceiptRecord where
  company_name : List Char
  total_amount : List Char
  deriving DecidableEq, Repr

/-- `_extract_receipt_info(content, filename)` (setup_script.py lines
243-295): company scan over the first 5 lines, total scan over all lines,
filename fallback for an empty company, `"10.00"` fallback for an empty
total. -/
def extractReceiptInfo (content filename : List Char) : ReceiptRecord :=
  let lines := pyLines content
  let company := scanCompany (lines.take 5)
  let total := scanTotal lines
  { company_name := if company = [] then fallbackCompany filename else company,
    total_amount := if total = [] then chars ("10.00") else total }

/-- Accumulate a digit run as a natural number. -/
def digitsVal (ds : List Char) : ℕ :=
  ds.foldl (fun a c => 10 * a + (c.toNat - 48)) 0

/-- Python `float(s)` restricted to decimal notation (optional surrounding
whitespace, optional sign, digits with an optional fractional part, at
least one digit): `none` models a raised `ValueError`.  Exotic float
syntax (exponents, `inf`, `nan`, underscores) is outside the model. -/
def parseAmount (l0 : List Char) : Option ℚ :=
  let l := pyStrip l0
  let sl : ℚ × List Char :=
    match l with
    | '+' :: t => (1, t)
    | '-' :: t => (-1, t)
    | t => (1, t)
  let p1 := sl.2.span Char.isDigit
  match p1.2 with
  | [] => if p1.1 = [] then none else some (sl.1 * digitsVal p1.1)
  | '.' :: r2 =>
    let p2 := r2.span Char.isDigit
    if p2.2 = [] then
      if p1.1 = [] && p2.1 = [] then none
      else some (sl.1 * (digitsVal p1.1 + (digitsVal p2.1 : ℚ) / 10 ^ p2.1.length))
    else none
  | _ => none

/-- Update the insertion-ordered association list modelling the Python dict
`aggregated`: add to an existing key in place, or append a new key at the
end (setup_script.py lines 221-227). -/
def updAgg (acc : List (List Char × ℚ)) (k : List Char) (v : ℚ) :
    List (List Char × ℚ) :=
  match acc with
  | [] => [(k, v)]
  | (k', v') :: t => if k' = k then (k', v' + v) :: t else (k', v') :: updAgg t k v

/-- The aggregation loop of `agent_2_aggregate_data` starting from an
accumulator: `none` models the `ValueError` raised by `float` on the
total_amount field propagating out of the loop. -/
def aggregateFrom (acc : List (List Char × ℚ)) :
    List ReceiptRecord → Option (List (List Char × ℚ))
  | [] => some acc
  | r :: rs =>
    match parseAmount r.total_amount with
    | none => none
    | some v => aggregateFrom (updAgg acc r.company_name v) rs

/-- `agent_2_aggregate_data(extracted_data)` (setup_script.py lines 214-227)
and the loop body of `aggregate_data` (receipt_processor.py lines 134-142):
group records by `company_name` and sum the parsed `total_amount` values. -/
def aggregate (rs : List ReceiptRecord) : Option (List (List Char × ℚ)) :=
  aggregateFrom [] rs

/-- Dict lookup on the association-list model. -/
def alookup (m : List (List Char × ℚ)) (k : List Char) : Option ℚ :=
  match m with
  | [] => none
  | (k', v) :: t => if k' = k then some v else alookup t k

/-- Whether some record of `rs` carries company `c`. -/
def occursCompany (rs : List ReceiptRecord) (c : List Char) : Bool :=
  rs.any fun r => r.company_name == c

/-- The exact sum of the parsed amounts of the records of company `c`. -/
def companyTotal (rs : List ReceiptRecord) (c : List Char) : ℚ :=
  ((rs.filter fun r => r.company_name == c).map
    fun r => (parseAmount r.total_amount).getD 0).sum

/-- Pointwise combination of optional totals: a key present on only one
side keeps its value (spec section 8, concatenation property). -/
def optAdd : Option ℚ → Option ℚ → Option ℚ
  | some a, some b => some (a + b)
  | some a, none => some a
  | none, b => b

/-- The optional total of company `c` in `rs`: present iff some record
carries that company. -/
def optTotal (rs : List ReceiptRecord) (c : List Char) : Option ℚ :=
  if occursCompany rs c then some (companyTotal rs c) else none

theorem optAdd_none_right (a : Option ℚ) : optAdd a none = a := by
  cases a <;> rfl

theorem optAdd_assoc (a b c : Option ℚ) :
    optAdd (optAdd a b) c = optAdd a (optAdd b c) := by
  cases a <;> cases b <;> cases c <;> simp [optAdd, add_assoc]

theorem alookup_updAgg (acc : List (List Char × ℚ)) (k : List Char) (v : ℚ)
    (c : List Char) :
    alookup (updAgg acc k v) c =
      optAdd (alookup acc c) (if c = k then some v else none) := by
  induction acc with
  | nil =>
    by_cases h : k = c
    · subst h; simp [updAgg, alookup, optAdd]
    · have hck : ¬c = k := fun hn => h hn.symm
      simp [updAgg, alookup, optAdd, h, hck]
  | cons p t ih =>
    obtain ⟨k', v'⟩ := p
    by_cases h1 : k' = k
    · by_cases h2 : k' = c
      · subst h1; subst h2
        simp [updAgg, alookup, optAdd]
      · subst h1
        have hck : ¬c = k' := fun hn => h2 hn.symm
        simp [updAgg, alookup, h2, hck, optAdd_none_right]
    · by_cases h2 : k' = c
      · subst h2
        simp [updAgg, alookup, h1, optAdd_none_right]
      · simp [updAgg, alookup, h1, h2, ih]

theorem aggregateFrom_none_iff (rs : List ReceiptRecord) :
    ∀ acc, (aggregateFrom acc rs = none ↔
      ∃ r ∈ rs, parseAmount r.total_amount = none) := by
  induction rs with
  | nil => intro acc; simp [aggregateFrom]
  | cons r rs ih =>
    intro acc
    cases h : parseAmount r.total_amount with
    | none => simp [aggregateFrom, h]
    | some v => simp [aggregateFrom, h, ih]

theorem companyTotal_cons (r : ReceiptRecord) (rs : List ReceiptRecord)
    (c : List Char) :
    companyTotal (r :: rs) c =
      (if r.company_name == c then (parseAmount r.total_amount).getD 0 else 0) +
        companyTotal rs c := by
  cases h : r.company_name == c <;> simp [companyTotal, h]

theorem companyTotal_eq_zero (rs : List ReceiptRecord) (c : List Char)
    (h : occursCompany rs c = false) : companyTotal rs c = 0 := by
  induction rs with
  | nil => simp [companyTotal]
  | cons r rs ih =>
    simp only [occursCompany, List.any_cons, Bool.or_eq_false_iff] at h
    rw [companyTotal_cons, h.1]
    simpa [occursCompany] using ih h.2

theorem occursCompany_cons (r : ReceiptRecord) (rs : List ReceiptRecord)
    (c : List Char) :
    occursCompany (r :: rs) c = ((r.company_name == c) || occursCompany rs c) := by
  simp [occursCompany]

theorem optTotal_pos (rs : List ReceiptRecord) (c : List Char)
    (h : occursCompany rs c = true) :
    optTotal rs c = some (companyTotal rs c) := by
  simp only [optTotal, h, if_true]

theorem optTotal_neg (rs : List ReceiptRecord) (c : List Char)
    (h : occursCompany rs c = false) : optTotal rs c = none := by
  simp only [optTotal, h, Bool.false_eq_true, if_false]

theorem optTotal_cons (r : ReceiptRecord) (rs : List ReceiptRecord)
    (c : List Char) (v : ℚ) (hv : parseAmount r.total_amount = some v) :
    optTotal (r :: rs) c =
      optAdd (if c = r.company_name then some v else none) (optTotal rs c) := by
  by_cases hck : c = r.company_name
  · have hb : (r.company_name == c) = true := by simp [hck]
    have hcons : occursCompany (r :: rs) c = true := by
      rw [occursCompany_cons, hb, Bool.true_or]
    cases hocc : occursCompany rs c with
    | true =>
      rw [optTotal_pos _ _ hcons, optTotal_pos _ _ hocc, companyTotal_cons,
        hb, hv]
      simp [optAdd, hck]
    | false =>
      rw [optTotal_pos _ _ hcons, optTotal_neg _ _ hocc, companyTotal_cons,
        hb, hv, companyTotal_eq_zero rs c hocc]
      simp [optAdd, hck]
  · have hb : (r.company_name == c) = false := by
      simp only [beq_eq_false_iff_ne, ne_eq]
      exact fun hn => hck hn.symm
    have hcons : occursCompany (r :: rs) c = occursCompany rs c := by
      rw [occursCompany_cons, hb, Bool.false_or]
    cases hocc : occursCompany rs c with
    | true =>
      rw [optTotal_pos _ _ (hcons.trans hocc), optTotal_pos _ _ hocc,
        companyTotal_cons, hb]
      simp [optAdd, hck]
    | false =>
      rw [optTotal_neg _ _ (hcons.trans hocc), optTotal_neg _ _ hocc]
      simp [optAdd, hck]

theorem aggregateFrom_lookup (rs : List ReceiptRecord) :
    ∀ acc, (∀ r ∈ rs, (parseAmount r.total_amount).isSome) →
      ∃ m, aggregateFrom acc rs = some m ∧
        ∀ c, alookup m c = optAdd (alookup acc c) (optTotal rs c) := by
  induction rs with
  | nil =>
    intro acc _
    exact ⟨acc, rfl, fun c => by
      simp [optTotal, occursCompany, optAdd_none_right]⟩
  | cons r rs ih =>
    intro acc h
    obtain ⟨v, hv⟩ := Option.isSome_iff_exists.mp (h r (by simp))
    obtain ⟨m, hm, hlook⟩ :=
      ih (updAgg acc r.company_name v) (fun r' hr' => h r' (by simp [hr']))
    refine ⟨m, by simp [aggregateFrom, hv, hm], fun c => ?_⟩
    rw [hlook c, alookup_updAgg, optAdd_assoc, ← optTotal_cons r rs c v hv]

theorem occursCompany_perm {l1 l2 : List ReceiptRecord} (h : l1.Perm l2)
    (c : List Char) : occursCompany l1 c = occursCompany l2 c := by
  unfold occursCompany
  rw [Bool.eq_iff_iff]
  simp only [List.any_eq_true]
  constructor
  · rintro ⟨r, hr, hb⟩; exact ⟨r, h.mem_iff.mp hr, hb⟩
  · rintro ⟨r, hr, hb⟩; exact ⟨r, h.mem_iff.mpr hr, hb⟩

theorem companyTotal_perm {l1 l2 : List ReceiptRecord} (h : l1.Perm l2)
    (c : List Char) : companyTotal l1 c = companyTotal l2 c :=
  List.Perm.sum_eq (List.Perm.map _ (List.Perm.filter _ h))

theorem optTotal_perm {l1 l2 : List ReceiptRecord} (h : l1.Perm l2)
    (c : List Char) : optTotal l1 c = optTotal l2 c := by
  unfold optTotal
  rw [occursCompany_perm h c, companyTotal_perm h c]

theorem occursCompany_append (A B : List ReceiptRecord) (c : List Char) :
    occursCompany (A ++ B) c = (occursCompany A c || occursCompany B c) := by
  simp [occursCompany]

theorem companyTotal_append (A B : List ReceiptRecord) (c : List Char) :
    companyTotal (A ++ B) c = companyTotal A c + companyTotal B c := by
  simp [companyTotal]

theorem optTotal_append (A B : List ReceiptRecord) (c : List Char) :
    optTotal (A ++ B) c = optAdd (optTotal A c) (optTotal B c) := by
  cases ha : occursCompany A c with
  | true =>
    cases hb : occursCompany B c with
    | true =>
      rw [optTotal_pos _ _ (by rw [occursCompany_append, ha, hb]; rfl),
        optTotal_pos _ _ ha, optTotal_pos _ _ hb, companyTotal_append]
      rfl
    | false =>
      rw [optTotal_pos _ _ (by rw [occursCompany_append, ha, hb]; rfl),
        optTotal_pos _ _ ha, optTotal_neg _ _ hb, companyTotal_append,
        companyTotal_eq_zero B c hb, add_zero]
      rfl
  | false =>
    cases hb : occursCompany B c with
    | true =>
      rw [optTotal_pos _ _ (by rw [occursCompany_append, ha, hb]; rfl),
        optTotal_neg _ _ ha, optTotal_pos _ _ hb, companyTotal_append,
        companyTotal_eq_zero A c ha, zero_add]
      rfl
    | false =>
      rw [optTotal_neg _ _ (by rw [occursCompany_append, ha, hb]; rfl),
        optTotal_neg _ _ ha, optTotal_neg _ _ hb]
      rfl

theorem aggregate_lookup (rs : List ReceiptRecord)
    (h : ∀ r ∈ rs, (parseAmount r.total_amount).isSome) :
    ∃ m, aggregate rs = some m ∧ ∀ c, alookup m c = optTotal rs c := by
  obtain ⟨m, hm, hl⟩ := aggregateFrom_lookup rs [] h
  exact ⟨m, hm, fun c => by rw [hl c]; rfl⟩

/-- The scenario records of spec section 8. -/
def sampleRecords : List ReceiptRecord :=
  [⟨chars ("STARBUCKS"), chars ("15.50")⟩,
   ⟨chars ("MCDONALDS"), chars ("8.75")⟩,
   ⟨chars ("STARBUCKS"), chars ("12.25")⟩,
   ⟨chars ("WALMART"), chars ("45.60")⟩,
   ⟨chars ("MCDONALDS"), chars ("6.50")⟩]

/-- A permutation of `sampleRecords`, used as the C5 witness input. -/
def sampleShuffled : List ReceiptRecord :=
  [⟨chars ("WALMART"), chars ("45.60")⟩,
   ⟨chars ("MCDONALDS"), chars ("6.50")⟩,
   ⟨chars ("STARBUCKS"), chars ("12.25")⟩,
   ⟨chars ("STARBUCKS"), chars ("15.50")⟩,
   ⟨chars ("MCDONALDS"), chars ("8.75")⟩]

/-- C1: for every record sequence whose total_amount fields parse as
decimal numbers, `aggregate` binds exactly the companies occurring in the
input (and no other key) to the sum of their parsed amounts; on the
scenario records of the spec it returns STARBUCKS ↦ 27.75, MCDONALDS ↦ 15.25,
WALMART ↦ 45.60. -/
theorem c1_aggregate_sums_by_company (rs : List ReceiptRecord)
    (h : ∀ r ∈ rs, (parseAmount r.total_amount).isSome) :
    (∃ m, aggregate rs = some m ∧
      ∀ c, alookup m c =
        if occursCompany rs c then some (companyTotal rs c) else none) ∧
    aggregate sampleRecords =
      some [(chars ("STARBUCKS"), (27.75 : ℚ)),
        (chars ("MCDONALDS"), (15.25 : ℚ)),
        (chars ("WALMART"), (45.60 : ℚ))] := by
  refine ⟨?_, by with_unfolding_all decide⟩
  obtain ⟨m, hm, hl⟩ := aggregate_lookup rs h
  exact ⟨m, hm, fun c => (hl c).trans rfl⟩

/-- C1 witness: the parseability hypothesis holds at the scenario records,
and the theorem applies there. -/
theorem c1_witness :
    (∀ r ∈ sampleRecords, (parseAmount r.total_amount).isSome) ∧
    ((∃ m, aggregate sampleRecords = some m ∧
      ∀ c, alookup m c =
        if occursCompany sampleRecords c then
          some (companyTotal sampleRecords c)
        else none) ∧
    aggregate sampleRecords =
      some [(chars ("STARBUCKS"), (27.75 : ℚ)),
        (chars ("MCDONALDS"), (15.25 : ℚ)),
        (chars ("WALMART"), (45.60 : ℚ))]) :=
  ⟨by with_unfolding_all decide, c1_aggregate_sums_by_company sampleRecords (by with_unfolding_all decide)⟩

/-- C5: `aggregate` is invariant under permutation of the input record
sequence: both runs succeed and agree on every key (same keys, equal
totals per key). -/
theorem c5_aggregate_perm_invariant (l1 l2 : List ReceiptRecord)
    (hperm : l1.Perm l2)
    (h : ∀ r ∈ l1, (parseAmount r.total_amount).isSome) :
    ∃ m1 m2, aggregate l1 = some m1 ∧ aggregate l2 = some m2 ∧
      ∀ c, alookup m1 c = alookup m2 c := by
  obtain ⟨m1, hm1, hl1⟩ := aggregate_lookup l1 h
  obtain ⟨m2, hm2, hl2⟩ :=
    aggregate_lookup l2 (fun r hr => h r (hperm.mem_iff.mpr hr))
  exact ⟨m1, m2, hm1, hm2, fun c => by
    rw [hl1 c, hl2 c, optTotal_perm hperm c]⟩

/-- C5 witness: the scenario records and a shuffle of them are a
permutation pair satisfying the hypotheses. -/
theorem c5_witness :
    sampleRecords.Perm sampleShuffled ∧
    (∀ r ∈ sampleRecords, (parseAmount r.total_amount).isSome) ∧
    (∃ m1 m2, aggregate sampleRecords = some m1 ∧
      aggregate sampleShuffled = some m2 ∧
      ∀ c, alookup m1 c = alookup m2 c) :=
  ⟨by with_unfolding_all decide, by with_unfolding_all decide,
    c5_aggregate_perm_invariant sampleRecords sampleShuffled (by with_unfolding_all decide)
      (by with_unfolding_all decide)⟩

/-- C6: aggregating a concatenation equals the pointwise `optAdd` sum of
the two aggregates; a key present on only one side keeps its value. -/
theorem c6_aggregate_append (A B : List ReceiptRecord)
    (h : ∀ r ∈ A ++ B, (parseAmount r.total_amount).isSome) :
    ∃ mA mB mAB, aggregate A = some mA ∧ aggregate B = some mB ∧
      aggregate (A ++ B) = some mAB ∧
      ∀ c, alookup mAB c = optAdd (alookup mA c) (alookup mB c) := by
  obtain ⟨mA, hmA, hlA⟩ :=
    aggregate_lookup A (fun r hr => h r (List.mem_append_left _ hr))
  obtain ⟨mB, hmB, hlB⟩ :=
    aggregate_lookup B (fun r hr => h r (List.mem_append_right _ hr))
  obtain ⟨mAB, hmAB, hlAB⟩ := aggregate_lookup (A ++ B) h
  exact ⟨mA, mB, mAB, hmA, hmB, hmAB, fun c => by
    rw [hlAB c, hlA c, hlB c, optTotal_append]⟩

/-- C6 witness: splitting the scenario records after the second entry. -/
theorem c6_witness :
    (∀ r ∈ sampleRecords.take 2 ++ sampleRecords.drop 2,
      (parseAmount r.total_amount).isSome) ∧
    (∃ mA mB mAB, aggregate (sampleRecords.take 2) = some mA ∧
      aggregate (sampleRecords.drop 2) = some mB ∧
      aggregate (sampleRecords.take 2 ++ sampleRecords.drop 2) = some mAB ∧
      ∀ c, alookup mAB c = optAdd (alookup mA c) (alookup mB c)) :=
  ⟨by with_unfolding_all decide,
    c6_aggregate_append (sampleRecords.take 2) (sampleRecords.drop 2)
      (by with_unfolding_all decide)⟩

/-- C8: aggregation fails (the modelled ValueError propagates and no map is
produced) exactly when the total_amount of some record is not parseable as a
decimal number; concretely, a non-numeric amount yields `none` while a
numeric one yields a map. -/
theorem c8_aggregate_error_iff (rs : List ReceiptRecord) :
    (aggregate rs = none ↔ ∃ r ∈ rs, parseAmount r.total_amount = none) ∧
    aggregate [⟨chars ("STARBUCKS"), chars ("abc")⟩] = none ∧
    aggregate [⟨chars ("STARBUCKS"), chars ("5.00")⟩] =
      some [(chars ("STARBUCKS"), (5 : ℚ))] :=
  ⟨aggregateFrom_none_iff rs [], by with_unfolding_all decide, by with_unfolding_all decide⟩

/-- Modelled from the claim wording of C2: the per-line company decision.
Skip a stripped line that is empty or whose lower-cased form contains a
metadata token; otherwise check the brand substrings in order, then the
generic alpha-line heuristic (only letters after removing spaces and
hyphens, length greater than 3). -/
def specLineCompany (rawLine : List Char) : Option (List Char) :=
  let line := pyStrip rawLine
  if line = [] then none
  else if hasMetaToken line then none
  else if pyContains (asciiUpper line) (chars ("STARBUCKS")) then
    some (chars ("STARBUCKS"))
  else if pyContains (asciiUpper line) (chars ("WAL-MART")) then
    some (chars ("WALMART"))
  else if pyContains (asciiUpper line) (chars ("WALMART")) then
    some (chars ("WALMART"))
  else if pyContains (asciiUpper line) (chars ("MCDONALD")) then
    some (chars ("MCDONALDS"))
  else if pyIsAlpha (stripSpaceHyphen line) && decide (line.length > 3) then
    some (asciiUpper line)
  else none

/-- Modelled from the claim wording of C2: scan lines in order and stop at
the first one yielding a company name. -/
def specScanCompany : List (List Char) → Option (List Char)
  | [] => none
  | l :: rest =>
    match specLineCompany l with
    | some c => some c
    | none => specScanCompany rest

theorem lineResult_eq_specLineCompany (l : List Char) :
    lineResult l = specLineCompany l := by
  by_cases h0 : pyStrip l = []
  · simp [lineResult, specLineCompany, h0]
  · by_cases hm : hasMetaToken (pyStrip l) = true
    · simp [lineResult, specLineCompany, h0, hm]
    · cases hsb : pyContains (asciiUpper (pyStrip l)) (chars ("STARBUCKS")) <;>
        cases hwd : pyContains (asciiUpper (pyStrip l)) (chars ("WAL-MART")) <;>
        cases hwm : pyContains (asciiUpper (pyStrip l)) (chars ("WALMART")) <;>
        cases hmc : pyContains (asciiUpper (pyStrip l)) (chars ("MCDONALD")) <;>
        simp [lineResult, specLineCompany, brandHit, h0, hm, hsb, hwd, hwm, hmc]

theorem scanCompany_eq_specScanCompany (ls : List (List Char)) :
    scanCompany ls = (specScanCompany ls).getD [] := by
  induction ls with
  | nil => rfl
  | cons l rest ih =>
    simp only [scanCompany, specScanCompany, lineResult_eq_specLineCompany]
    cases specLineCompany l <;> simp [ih]

theorem specLineCompany_ne_nil {l c : List Char}
    (h : specLineCompany l = some c) : c ≠ [] := by
  unfold specLineCompany at h
  by_cases h0 : pyStrip l = []
  · simp [h0] at h
  · simp only [h0, if_false] at h
    split at h
    · simp at h
    · split at h
      · rw [Option.some_inj] at h; subst h; decide
      · split at h
        · rw [Option.some_inj] at h; subst h; decide
        · split at h
          · rw [Option.some_inj] at h; subst h; decide
          · split at h
            · rw [Option.some_inj] at h; subst h; decide
            · split at h
              · rw [Option.some_inj] at h; subst h
                simp [asciiUpper, h0]
              · simp at h

theorem specScanCompany_ne_nil {ls : List (List Char)} {c : List Char}
    (h : specScanCompany ls = some c) : c ≠ [] := by
  induction ls with
  | nil => simp [specScanCompany] at h
  | cons l rest ih =>
    rw [specScanCompany] at h
    cases hl : specLineCompany l with
    | some c' =>
      rw [hl] at h
      rw [Option.some_inj] at h
      exact h ▸ specLineCompany_ne_nil hl
    | none => rw [hl] at h; exact ih h

/-- C2: the company name produced by `extract` is exactly what the
claim-described scan of the first 5 lines yields — skip empty or
metadata-token lines, map brand substrings to canonical names in order,
otherwise accept an all-letters line (after removing spaces and hyphens)
longer than 3 characters upper-cased, stopping at the first line with a
result (the filename fallback applies only when the scan yields nothing). -/
theorem c2_company_scan_follows_spec (content filename : List Char) :
    (extractReceiptInfo content filename).company_name =
      match specScanCompany ((pyLines content).take 5) with
      | some c => c
      | none => fallbackCompany filename := by
  unfold extractReceiptInfo
  simp only [scanCompany_eq_specScanCompany]
  cases h : specScanCompany ((pyLines content).take 5) with
  | none => simp
  | some c => simp [specScanCompany_ne_nil h]

/-- Modelled from the claim wording of C3: scan all lines in order, stop at
the first whose upper-cased stripped form contains `TOTAL:` or starts with
`TOTAL` while containing a dollar sign, and collect on it every substring
matching the digits-dot-digits pattern optionally preceded by a dollar
sign. -/
def specScanAmounts : List (List Char) → Option (List (List Char))
  | [] => none
  | l :: rest =>
    if pyContains (asciiUpper (pyStrip l)) (chars ("TOTAL:")) ||
        ((chars ("TOTAL")).isPrefixOf (asciiUpper (pyStrip l)) &&
          (asciiUpper (pyStrip l)).contains '$') then
      some (findAmounts (asciiUpper (pyStrip l)))
    else specScanAmounts rest

theorem scanTotal_eq_specScanAmounts (ls : List (List Char)) :
    scanTotal ls =
      match specScanAmounts ls with
      | some amts => amts.getLast?.getD []
      | none => [] := by
  induction ls with
  | nil => rfl
  | cons l rest ih =>
    by_cases h : matchesTotalLine l = true
    · have h' : (pyContains (asciiUpper (pyStrip l)) (chars ("TOTAL:")) ||
          ((chars ("TOTAL")).isPrefixOf (asciiUpper (pyStrip l)) &&
            (asciiUpper (pyStrip l)).contains '$')) = true := h
      simp only [scanTotal, specScanAmounts, h, h', if_true]
      cases (findAmounts (asciiUpper (pyStrip l))).getLast? <;> simp
    · have h' : (pyContains (asciiUpper (pyStrip l)) (chars ("TOTAL:")) ||
          ((chars ("TOTAL")).isPrefixOf (asciiUpper (pyStrip l)) &&
            (asciiUpper (pyStrip l)).contains '$')) = false :=
        Bool.not_eq_true _ ▸ Bool.of_not_eq_true h
      simp only [scanTotal, specScanAmounts, h, h', if_false,
        Bool.false_eq_true]
      exact ih

theorem tryDec_ne_nil {l amt rest : List Char}
    (h : tryDec l = some (amt, rest)) : amt ≠ [] := by
  simp only [tryDec] at h
  split at h
  · split at h
    · exact absurd h (by simp)
    · rw [Option.some_inj] at h
      have : amt = (List.span Char.isDigit l).1 ++ '.' ::
          (List.span Char.isDigit _).1 := congrArg Prod.fst h.symm
      rw [this]
      simp
  · exact absurd h (by simp)

theorem tryAmount_ne_nil {l amt rest : List Char}
    (h : tryAmount l = some (amt, rest)) : amt ≠ [] := by
  unfold tryAmount at h
  split at h
  · exact tryDec_ne_nil h
  · exact tryDec_ne_nil h

theorem findAmountsAux_ne_nil :
    ∀ (fuel : Nat) (l a : List Char), a ∈ findAmountsAux fuel l → a ≠ [] := by
  intro fuel
  induction fuel with
  | zero => intro l a ha; simp [findAmountsAux] at ha
  | succ n ih =>
    intro l a ha
    cases l with
    | nil => simp [findAmountsAux] at ha
    | cons c cs =>
      rw [findAmountsAux] at ha
      cases htry : tryAmount (c :: cs) with
      | none => rw [htry] at ha; exact ih cs a ha
      | some p =>
        obtain ⟨amt, rest⟩ := p
        rw [htry] at ha
        rcases List.mem_cons.mp ha with h1 | h2
        · exact h1 ▸ tryAmount_ne_nil htry
        · exact ih rest a h2

theorem findAmounts_ne_nil {l a : List Char} (h : a ∈ findAmounts l) :
    a ≠ [] := findAmountsAux_ne_nil l.length l a h

theorem specScanAmounts_ne_nil {ls : List (List Char)}
    {amts : List (List Char)} {a : List Char}
    (h : specScanAmounts ls = some amts) (ha : a ∈ amts) : a ≠ [] := by
  induction ls with
  | nil => simp [specScanAmounts] at h
  | cons l rest ih =>
    rw [specScanAmounts] at h
    split at h
    · rw [Option.some_inj] at h
      exact findAmounts_ne_nil (h ▸ ha)
    · exact ih h

/-- C3: the total amount of `extract` follows the claim-described scan —
stop at the first matching line and return the last collected amount of
that line (the 10.00 default applies exactly when nothing is collected);
in particular a single line with several amounts yields the last one,
9.45. -/
theorem c3_total_scan_follows_spec (content filename : List Char) :
    ((extractReceiptInfo content filename).total_amount =
      match specScanAmounts (pyLines content) with
      | some amts => amts.getLast?.getD (chars ("10.00"))
      | none => chars ("10.00")) ∧
    (extractReceiptInfo (chars ("Subtotal: $8.75  Tax: $0.70  TOTAL: $9.45"))
        (chars ("r.txt"))).total_amount = chars ("9.45") := by
  constructor
  · simp only [extractReceiptInfo, scanTotal_eq_specScanAmounts]
    cases h : specScanAmounts (pyLines content) with
    | none => simp
    | some amts =>
      cases hl : amts.getLast? with
      | none => simp [hl]
      | some a =>
        have ha : a ≠ [] :=
          specScanAmounts_ne_nil h (List.mem_of_mem_getLast? hl)
        simp [hl, ha]
  · decide

/-- Modelled from the claim wording of C7: the filename-derived fallback
company table with case-insensitive substring matching. -/
def specFallback (sourceName : List Char) : List Char :=
  if pyContains (asciiLower sourceName) (chars ("starbucks")) then
    chars ("STARBUCKS")
  else if pyContains (asciiLower sourceName) (chars ("walmart")) then
    chars ("WALMART")
  else if pyContains (asciiLower sourceName) (chars ("mcdonalds")) ||
      pyContains (asciiLower sourceName) (chars ("mcd")) then
    chars ("MCDONALDS")
  else chars ("UNKNOWN_STORE")

/-- C7: `extract` is total — every input pair yields a record; the company
name equals the claim's filename-derived fallback exactly when the header
scan yields nothing, the total degrades to 10.00 exactly when no total
line with an amount is found, and the claim's concrete no-header no-total
scenario yields UNKNOWN_STORE with 10.00. -/
theorem c7_extract_total_with_defaults (content filename : List Char) :
    ((extractReceiptInfo content filename).company_name =
      (if scanCompany ((pyLines content).take 5) = [] then specFallback filename
       else scanCompany ((pyLines content).take 5)) ∧
     (extractReceiptInfo content filename).total_amount =
      (if scanTotal (pyLines content) = [] then chars ("10.00")
       else scanTotal (pyLines content))) ∧
    extractReceiptInfo (chars ("item 1 $5\nitem 2 $6"))
        (chars ("unknown.pdf")) =
      ⟨chars ("UNKNOWN_STORE"), chars ("10.00")⟩ :=
  ⟨⟨rfl, rfl⟩, by decide⟩

theorem pyContains_iff_isInfix (hay needle : List Char) :
    pyContains hay needle = true ↔ needle <:+: hay := by
  induction hay with
  | nil => simp [pyContains, List.isEmpty_iff, List.infix_nil]
  | cons c t ih =>
    rw [pyContains]
    simp [ List.isPrefixOf_iff_prefix, ih, List.infix_cons_iff]

theorem pyContains_mono {hay n m : List Char}
    (h : pyContains hay n = true) (hm : m <:+: n) :
    pyContains hay m = true := by
  rw [ pyContains_iff_isInfix] at h ⊢
  exact hm.trans h

/-- C9 (implicit): the upper-cased total-line test only checks substring
containment of TOTAL:, so a Subtotal: line matches it; the scan stops
there, hence a Subtotal: line carrying amounts that precedes the real
TOTAL line determines the extracted total. -/
theorem c9_subtotal_line_wins (content filename : List Char)
    (pre rest : List (List Char)) (l a : List Char)
    (hsplit : pyLines content = pre ++ l :: rest)
    (hpre : ∀ p ∈ pre, matchesTotalLine p = false)
    (hsub : pyContains (asciiUpper (pyStrip l)) (chars ("SUBTOTAL:")) = true)
    (hlast : (findAmounts (asciiUpper (pyStrip l))).getLast? = some a) :
    (extractReceiptInfo content filename).total_amount = a := by
  have htot : pyContains (asciiUpper (pyStrip l)) (chars ("TOTAL:")) = true :=
    pyContains_mono hsub ⟨chars ("SUB"), [], by decide⟩
  have hmatch : matchesTotalLine l = true := by
    simp [matchesTotalLine, htot]
  have hne : a ≠ [] := findAmounts_ne_nil (List.mem_of_mem_getLast? hlast)
  have hscan : ∀ (q : List (List Char)),
      (∀ p ∈ q, matchesTotalLine p = false) →
      scanTotal (q ++ l :: rest) = a := by
    intro q hq
    induction q with
    | nil => simp [scanTotal, hmatch, hlast]
    | cons x xs ih =>
      have hx : matchesTotalLine x = false := hq x (by simp)
      simp only [List.cons_append, scanTotal, hx, Bool.false_eq_true, if_false]
      exact ih (fun p hp => hq p (by simp [hp]))
  simp only [extractReceiptInfo, hsplit, hscan pre hpre, if_neg hne]

/-- C9 witness: the hypotheses are satisfiable — a receipt whose Subtotal
line precedes its TOTAL line yields the subtotal amount 8.75, not 9.45. -/
theorem c9_witness :
    ((∀ p ∈ ([] : List (List Char)), matchesTotalLine p = false) ∧
     pyLines (chars ("Subtotal: $8.75\nTOTAL: $9.45")) =
       [] ++ chars ("Subtotal: $8.75") :: [chars ("TOTAL: $9.45")] ∧
     pyContains (asciiUpper (pyStrip (chars ("Subtotal: $8.75"))))
       (chars ("SUBTOTAL:")) = true ∧
     (findAmounts (asciiUpper (pyStrip (chars ("Subtotal: $8.75"))))).getLast? =
       some (chars ("8.75"))) ∧
    (extractReceiptInfo (chars ("Subtotal: $8.75\nTOTAL: $9.45"))
        (chars ("r.txt"))).total_amount = chars ("8.75") :=
  ⟨⟨by decide, by decide, by decide, by decide⟩,
    c9_subtotal_line_wins (chars ("Subtotal: $8.75\nTOTAL: $9.45"))
      (chars ("r.txt")) [] [chars ("TOTAL: $9.45")]
      (chars ("Subtotal: $8.75")) (chars ("8.75"))
      (by decide) (by decide) (by decide) (by decide)⟩

/-- C10 (implicit): the total scan breaks at the first matching line even
when it carries no digits-dot-digits amount, so all later lines are
ignored and the extracted total degrades to the 10.00 default. -/
theorem c10_break_on_amountless_total_line (content filename : List Char)
    (pre rest : List (List Char)) (l : List Char)
    (hsplit : pyLines content = pre ++ l :: rest)
    (hpre : ∀ p ∈ pre, matchesTotalLine p = false)
    (hmatch : matchesTotalLine l = true)
    (hnone : findAmounts (asciiUpper (pyStrip l)) = []) :
    (extractReceiptInfo content filename).total_amount = chars ("10.00") := by
  have hscan : ∀ (q : List (List Char)),
      (∀ p ∈ q, matchesTotalLine p = false) →
      scanTotal (q ++ l :: rest) = [] := by
    intro q hq
    induction q with
    | nil => simp [scanTotal, hmatch, hnone]
    | cons x xs ih =>
      have hx : matchesTotalLine x = false := hq x (by simp)
      simp only [List.cons_append, scanTotal, hx, Bool.false_eq_true, if_false]
      exact ih (fun p hp => hq p (by simp [hp]))
  simp [extractReceiptInfo, hsplit, hscan pre hpre]

/-- C10 witness: a first total line with only a whole-dollar amount makes
extract ignore the later line with 20.00 and fall back to 10.00. -/
theorem c10_witness :
    ((∀ p ∈ ([] : List (List Char)), matchesTotalLine p = false) ∧
     pyLines (chars ("TOTAL: $15\nGRAND TOTAL: $20.00")) =
       [] ++ chars ("TOTAL: $15") :: [chars ("GRAND TOTAL: $20.00")] ∧
     matchesTotalLine (chars ("TOTAL: $15")) = true ∧
     findAmounts (asciiUpper (pyStrip (chars ("TOTAL: $15")))) = []) ∧
    (extractReceiptInfo (chars ("TOTAL: $15\nGRAND TOTAL: $20.00"))
        (chars ("x.txt"))).total_amount = chars ("10.00") :=
  ⟨⟨by decide, by decide, by decide, by decide⟩,
    c10_break_on_amountless_total_line
      (chars ("TOTAL: $15\nGRAND TOTAL: $20.00")) (chars ("x.txt"))
      [] [chars ("GRAND TOTAL: $20.00")] (chars ("TOTAL: $15"))
      (by decide) (by decide) (by decide) (by decide)⟩

/-- C4 as stated is false on the code: a generic alpha line earlier in the
scan window wins over a brand substring on a later line.  Here STARBUCKS
appears within the first 5 lines, yet extract returns the first line's
generic name ACMECORP. -/
theorem c4_counterexample :
    (∃ l ∈ (pyLines
        (chars ("ACMECORP\nSTARBUCKS COFFEE\nTOTAL: $5.00"))).take 5,
      pyContains (asciiUpper l) (chars ("STARBUCKS")) = true) ∧
    (extractReceiptInfo (chars ("ACMECORP\nSTARBUCKS COFFEE\nTOTAL: $5.00"))
        (chars ("a.txt"))).company_name = chars ("ACMECORP") ∧
    ¬(extractReceiptInfo (chars ("ACMECORP\nSTARBUCKS COFFEE\nTOTAL: $5.00"))
        (chars ("a.txt"))).company_name = chars ("STARBUCKS") :=
  ⟨⟨chars ("STARBUCKS COFFEE"), by decide, by decide⟩, by decide, by decide⟩

/-- The canonical brand of a line already known to contain one of the four
brand substrings, in the priority order of the source's nested branches. -/
def canonicalBrand (u : List Char) : List Char :=
  if pyContains u (chars ("STARBUCKS")) then chars ("STARBUCKS")
  else if pyContains u (chars ("WAL-MART")) ||
      pyContains u (chars ("WALMART")) then chars ("WALMART")
  else chars ("MCDONALDS")

/-- C4 amended: brand substrings take priority over the generic alpha-line
heuristic only within a single line — if the first line of the scan window
to yield a company result contains a brand substring (in particular even
when that same line also satisfies the generic alpha heuristic), extract
returns the corresponding canonical brand name. -/
theorem c4_amended_brand_priority_within_line (content filename : List Char)
    (pre rest : List (List Char)) (l : List Char)
    (hsplit : (pyLines content).take 5 = pre ++ l :: rest)
    (hpre : ∀ p ∈ pre, lineResult p = none)
    (hstrip : pyStrip l ≠ [])
    (hmeta : hasMetaToken (pyStrip l) = false)
    (hbrand : brandHit (asciiUpper (pyStrip l)) = true) :
    (extractReceiptInfo content filename).company_name =
      canonicalBrand (asciiUpper (pyStrip l)) := by
  have hline : lineResult l = some (canonicalBrand (asciiUpper (pyStrip l))) := by
    cases hsb : pyContains (asciiUpper (pyStrip l)) (chars ("STARBUCKS")) <;>
      cases hwd : pyContains (asciiUpper (pyStrip l)) (chars ("WAL-MART")) <;>
      cases hwm : pyContains (asciiUpper (pyStrip l)) (chars ("WALMART")) <;>
      cases hmc : pyContains (asciiUpper (pyStrip l)) (chars ("MCDONALD")) <;>
      simp_all [lineResult, canonicalBrand, brandHit]
  have hne : canonicalBrand (asciiUpper (pyStrip l)) ≠ [] := by
    unfold canonicalBrand
    split
    · decide
    · split
      · decide
      · decide
  have hscan : ∀ (q : List (List Char)), (∀ p ∈ q, lineResult p = none) →
      scanCompany (q ++ l :: rest) =
        canonicalBrand (asciiUpper (pyStrip l)) := by
    intro q hq
    induction q with
    | nil => simp [scanCompany, hline]
    | cons x xs ih =>
      have hx : lineResult x = none := hq x (by simp)
      simp only [List.cons_append, scanCompany, hx]
      exact ih (fun p hp => hq p (by simp [hp]))
  simp only [extractReceiptInfo, hsplit, hscan pre hpre, if_neg hne]

/-- C4 amended witness: on a line satisfying both the brand test and the
generic alpha heuristic, the brand wins: STARBUCKS COFFEE maps to
STARBUCKS, not STARBUCKS COFFEE. -/
theorem c4_witness :
    ((∀ p ∈ ([] : List (List Char)), lineResult p = none) ∧
     (pyLines (chars ("STARBUCKS COFFEE\nTOTAL: $2.00"))).take 5 =
       [] ++ chars ("STARBUCKS COFFEE") :: [chars ("TOTAL: $2.00")] ∧
     pyStrip (chars ("STARBUCKS COFFEE")) ≠ [] ∧
     hasMetaToken (pyStrip (chars ("STARBUCKS COFFEE"))) = false ∧
     brandHit (asciiUpper (pyStrip (chars ("STARBUCKS COFFEE")))) = true ∧
     pyIsAlpha (stripSpaceHyphen (pyStrip (chars ("STARBUCKS COFFEE")))) = true) ∧
    (extractReceiptInfo (chars ("STARBUCKS COFFEE\nTOTAL: $2.00"))
        (chars ("x.txt"))).company_name = chars ("STARBUCKS") :=
  ⟨⟨by decide, by decide, by decide, by decide, by decide, by decide⟩,
    (c4_amended_brand_priority_within_line
      (chars ("STARBUCKS COFFEE\nTOTAL: $2.00")) (chars ("x.txt"))
      [] [chars ("TOTAL: $2.00")] (chars ("STARBUCKS COFFEE"))
      (by decide) (by decide) (by decide) (by decide) (by decide)).trans
      (by decide)⟩

end Receipts
